import Mathlib

/-!
Verification of the BookStack → Open WebUI RAG sync service.

Shallow embedding of:
- the text chunker (`RAGProcessor._split_into_chunks`, rag_processor.py) — the
  splitting algorithm itself lives in the third-party
  `RecursiveCharacterTextSplitter`, which is not part of this repository, so
  the splitter is modelled from the specification (§4.1, §9: recursive
  separator cascade with piece-exact overlap carry); the separator list and
  the configuration handling are taken from rag_processor.py;
- the webhook handler (`bookstack_webhook`, main.py lines 74–101);
- the BookStack client (`BookStackAPI`, bookstack_api.py);
- the ingestion stub (`RAGProcessor._simulate_openwebui_ingestion`,
  rag_processor.py lines 47–93) and the background task
  (`process_bookstack_update`, main.py lines 51–69).

Python strings are modelled as `List Char` in the chunker (len = number of
characters) and as `String` elsewhere; environment variables as
`Option String` (`None` vs a string value); HTTP effects as explicit outcome
parameters.
-/

/-! ## Chunker: separator splitting primitives -/

/-- Attach a character to the head piece of a split result
(used when the current character is not the start of a separator occurrence). -/
def consHead (c : Char) : List (List Char) → List (List Char)
  | [] => [[c]]
  | h :: t => (c :: h) :: t

/-- Fuel-driven splitting of a character list at every (leftmost,
non-overlapping) occurrence of the separator `sep`, mirroring Python's
`str.split(sep)` for a non-empty separator.  The fuel is only there to make
the recursion structural; `splitOn` always supplies enough fuel. -/
def splitOnF (sep : List Char) : Nat → List Char → List (List Char)
  | _, [] => [[]]
  | 0, s => [s]
  | fuel + 1, c :: cs =>
    if sep.isPrefixOf (c :: cs) then
      [] :: splitOnF sep fuel (cs.drop (sep.length - 1))
    else
      consHead c (splitOnF sep fuel cs)

/-- Split `s` at every occurrence of the non-empty separator `sep`
(Python `s.split(sep)`). -/
def splitOn (sep s : List Char) : List (List Char) :=
  splitOnF sep s.length s

/-- Rejoin pieces with the separator between consecutive pieces
(Python `sep.join(pieces)`). -/
def joinSep (sep : List Char) : List (List Char) → List Char
  | [] => []
  | [p] => p
  | p :: ps => p ++ sep ++ joinSep sep ps

/-- Split a span into finest pieces for one cascade level: a non-empty
separator splits at every occurrence; the empty separator is the
character-level fallback (one piece per character). -/
def splitPieces (sep : List Char) (s : List Char) : List (List Char) :=
  if sep.isEmpty then s.map (fun c => [c]) else splitOn sep s

/-- The separator cascade configured in rag_processor.py line 32:
`separators=["\n\n", "\n", " ", ""]`. -/
def SEPARATORS : List (List Char) :=
  [['\n', '\n'], ['\n'], [' '], []]

/-! ## Chunker: recursive separator cascade

Modelled from the spec (§4.1 algorithm, §9 design notes): the splitting
algorithm is implemented by the third-party `RecursiveCharacterTextSplitter`
called at rag_processor.py line 45, whose code is not part of this
repository. -/

/-- Modelled from the spec: overlap seed for a fresh buffer (§4.1 step 2 with
the piece-exact rule of §9) — carry back the longest suffix of whole pieces
of the just-emitted buffer whose rejoined length is ≤ the overlap `O`,
shrunk further so that the seeded buffer plus the next piece `p` stays
within the maximum `M` (required by the ≤ M chunk invariant of §3/§8). -/
def carrySeed (M O : Nat) (sep : List Char) (p : List Char) :
    List (List Char) → List (List Char)
  | [] => []
  | q :: tail =>
    if (joinSep sep (q :: tail)).length ≤ O ∧
        (joinSep sep ((q :: tail) ++ [p])).length ≤ M then
      q :: tail
    else
      carrySeed M O sep p tail

/-- Modelled from the spec: greedy accumulation of pieces into chunks
(§4.1 step 2), recursing through `rec` into any piece still longer than `M`
(§4.1 step 3).  `buffer` is the running buffer of pieces. -/
def mergeLoop (M O : Nat) (sep : List Char) (rec : List Char → List (List Char)) :
    List (List Char) → List (List Char) → List (List Char)
  | [], buffer => if buffer.isEmpty then [] else [joinSep sep buffer]
  | p :: ps, buffer =>
    if M < p.length then
      (if buffer.isEmpty then [] else [joinSep sep buffer]) ++ rec p ++
        mergeLoop M O sep rec ps []
    else if buffer.isEmpty then
      mergeLoop M O sep rec ps [p]
    else if M < (joinSep sep (buffer ++ [p])).length then
      joinSep sep buffer :: mergeLoop M O sep rec ps (carrySeed M O sep p buffer ++ [p])
    else
      mergeLoop M O sep rec ps (buffer ++ [p])

/-- Modelled from the spec: split one span using the remaining separator
cascade (§4.1).  A span not longer than `M` is one chunk; with no separators
remaining the span is emitted verbatim as an oversized chunk. -/
def chunkSpan (M O : Nat) : List (List Char) → List Char → List (List Char)
  | [], span => [span]
  | sep :: rest, span =>
    if span.length ≤ M then [span]
    else mergeLoop M O sep (chunkSpan M O rest) (splitPieces sep span) []

/-- Modelled from the spec: `RAGProcessor._split_into_chunks` —
the full chunker with the separator cascade from rag_processor.py line 32,
maximum chunk size `M` and overlap `O` (§4.1 contract: empty input gives the
empty sequence). -/
def split_text (M O : Nat) (text : List Char) : List (List Char) :=
  if text.isEmpty then [] else chunkSpan M O SEPARATORS text

example : split_text 5 1 "abc def".toList = ["abc".toList, "def".toList] := by decide

example : split_text 1000 200 "Texto pequeno".toList = ["Texto pequeno".toList] := by
  decide

/-! ## Chunking configuration (rag_processor.py lines 19–33) -/

/-- State of one of the `CHUNK_SIZE` / `CHUNK_OVERLAP` environment values as
seen by `int(os.getenv(..., default))`: unset (the integer default is used),
a numeric string, or a non-numeric string (`int` raises `ValueError`). -/
inductive EnvNum where
  | unset
  | numeric (n : Nat)
  | malformed
deriving DecidableEq, Repr

/-- The chunking configuration resolved by `RAGProcessor.__init__`
(rag_processor.py lines 20–26): if either value is non-numeric the
`ValueError` handler resets both to the defaults (1000, 200); an unset value
takes its default. -/
def resolveChunkConfig (size overlap : EnvNum) : Nat × Nat :=
  match size, overlap with
  | .malformed, _ => (1000, 200)
  | _, .malformed => (1000, 200)
  | s, o =>
    (match s with | .numeric n => n | _ => 1000,
     match o with | .numeric n => n | _ => 200)

/-- Modelled from the spec: the splitter constructor invoked at
rag_processor.py lines 28–33 is the third-party
`RecursiveCharacterTextSplitter`, whose code is not part of this repository;
per §7 a configuration with `overlap ≥ max` is rejected at construction with
a descriptive configuration error, before any chunking is attempted. -/
def mkTextSplitter (M O : Nat) : Except String (Nat × Nat) :=
  if M ≤ O then
    .error "invalid chunking configuration: overlap must be smaller than chunk size"
  else
    .ok (M, O)

/-- `RAGProcessor.__init__` configuration phase: resolve the environment
values (rag_processor.py lines 20–26), then construct the splitter
(lines 28–33, splitter modelled from the spec). -/
def ragProcessorInit (size overlap : EnvNum) : Except String (Nat × Nat) :=
  let cfg := resolveChunkConfig size overlap
  mkTextSplitter cfg.1 cfg.2

/-! ## Environment values and Python truthiness -/

/-- Python truthiness of an `os.getenv` result: `None` and the empty string
are falsy (this is what `not all([...])` tests in bookstack_api.py line 35
and rag_processor.py line 57). -/
def pyFalsy : Option String → Bool
  | none => true
  | some s => s.isEmpty

/-- How a Python f-string renders an `os.getenv` result: `None` prints as
the four characters `None` (rag_processor.py line 73 uses
`os.getenv('BOOKSTACK_BASE_URL')` with no default). -/
def pyStrOfOpt : Option String → String
  | none => "None"
  | some s => s

/-! ## BookStackAPI (bookstack_api.py) -/

/-- The BookStack client configuration read in `BookStackAPI.__init__`
(bookstack_api.py lines 11–14). -/
structure BookStackEnv where
  base_url : Option String
  token_id : Option String
  token_secret : Option String

/-- Outcome of the one HTTP request a `BookStackAPI._make_request` call
performs: an HTTP error status (raised by `raise_for_status`), a transport
error (`requests.exceptions.RequestException`), or a parsed JSON object,
modelled as the string fields the client reads. -/
inductive HttpOutcome where
  | httpError (status : Nat)
  | requestError
  | success (fields : List (String × String))

/-- `dict.get`-style lookup in the modelled JSON object. -/
def lookupField (k : String) (fields : List (String × String)) : Option String :=
  (fields.find? (fun kv => kv.1 = k)).map (fun kv => kv.2)

/-- `BookStackAPI._make_request` (bookstack_api.py lines 31–51): returns
`None` when any credential is unset/empty, `None` on `HTTPError` or
`RequestException`, and the parsed JSON body otherwise. -/
def make_request (env : BookStackEnv) (outcome : HttpOutcome) :
    Option (List (String × String)) :=
  if pyFalsy env.base_url || pyFalsy env.token_id || pyFalsy env.token_secret then
    none
  else
    match outcome with
    | .httpError _ => none
    | .requestError => none
    | .success fields => some fields

/-- `BookStackAPI.get_page_content` (bookstack_api.py lines 61–73): the
`markdown` field of the page response when the request succeeded and the
field is present, the empty string otherwise. -/
def get_page_content (env : BookStackEnv) (outcome : HttpOutcome) : String :=
  match make_request env outcome with
  | none => ""
  | some data =>
    match lookupField "markdown" data with
    | some md => md
    | none => ""

/-- The attributes an instance of `BookStackAPI` actually has: the fields
set in `__init__` and the methods defined on the class body of
bookstack_api.py (lines 7–89).  There is no `is_book_monitored` among them,
so the attribute lookup `bookstack_api.is_book_monitored` performed by
main.py line 90 raises `AttributeError`.  The missing method is modelled as
`none`. -/
def BookStackAPI.is_book_monitored_lookup : Option (Int → List Int → Bool) :=
  none

/-! ## RAGProcessor ingestion (rag_processor.py) -/

/-- The Open WebUI configuration read in `RAGProcessor.__init__`
(rag_processor.py lines 15–17) plus the BookStack base URL read again at
ingestion time (rag_processor.py line 73). -/
structure RAGEnv where
  base_url : Option String
  api_key : Option String
  kb_name : Option String
  bookstack_base_url : Option String

/-- The metadata dict built at rag_processor.py lines 70–74. -/
structure ChunkMetadata where
  source : String
  title : String
  url : String
deriving DecidableEq, Repr

/-- One payload dict built in the ingestion loop
(rag_processor.py lines 77–82). -/
structure IngestPayload where
  chunk_id : String
  text : String
  metadata : ChunkMetadata
deriving DecidableEq, Repr

/-- `RAGProcessor._simulate_openwebui_ingestion`
(rag_processor.py lines 47–93), abstracted to the sequence of chunk payloads
it emits: nothing when any Open WebUI credential is unset/empty
(lines 57–59), otherwise one payload per chunk, in order, sharing one
metadata dict. -/
def simulate_openwebui_ingestion (env : RAGEnv) (page_id : Int)
    (page_name : String) (chunks : List String) : List IngestPayload :=
  if pyFalsy env.base_url || pyFalsy env.api_key || pyFalsy env.kb_name then
    []
  else
    let metadata : ChunkMetadata :=
      { source := "BookStack Page ID: " ++ toString page_id
        title := page_name
        url := pyStrOfOpt env.bookstack_base_url ++ "view/" ++ toString page_id }
    chunks.enum.map (fun ic =>
      { chunk_id := toString page_id ++ "-" ++ toString ic.1
        text := ic.2
        metadata := metadata })

/-- `RAGProcessor.process_and_index` (rag_processor.py lines 96–104):
chunk the content, then run the (simulated) ingestion. -/
def process_and_index (env : RAGEnv) (M O : Nat) (page_id : Int)
    (page_name : String) (markdown_content : String) : List IngestPayload :=
  simulate_openwebui_ingestion env page_id page_name
    ((split_text M O markdown_content.toList).map (fun l => String.mk l))

/-! ## Background processing and webhook handler (main.py) -/

/-- Result of one background unit of work
(`process_bookstack_update`, main.py lines 51–69). -/
inductive ProcessOutcome where
  | aborted_no_content
  | indexed (payloads : List IngestPayload)
deriving DecidableEq, Repr

/-- `process_bookstack_update` (main.py lines 51–69): fetch the page
content; an empty result aborts before any chunking or ingestion
(lines 62–64), otherwise chunk and index. -/
def process_bookstack_update (bsEnv : BookStackEnv) (outcome : HttpOutcome)
    (ragEnv : RAGEnv) (M O : Nat) (page_id : Int) (page_name : String) :
    ProcessOutcome :=
  let markdown_content := get_page_content bsEnv outcome
  if markdown_content.isEmpty then
    .aborted_no_content
  else
    .indexed (process_and_index ragEnv M O page_id page_name markdown_content)

/-- Pydantic model `WebhookRelatedItem` (main.py lines 35–41). -/
structure WebhookRelatedItem where
  id : Int
  name : String
  slug : String
  book_id : Int
  chapter_id : Option Int
  url : String
deriving DecidableEq, Repr

/-- Pydantic model `WebhookPayload` (main.py lines 43–47); a value of this
type is a notification that parsed successfully. -/
structure WebhookPayload where
  event : String
  text : String
  url : String
  related_item : WebhookRelatedItem
deriving DecidableEq, Repr

/-- The JSON acknowledgments the handler can return (main.py lines 82, 96,
101). -/
inductive AckResponse where
  | ignored (reason : String)
  | success (message : String)
deriving DecidableEq, Repr

/-- What the endpoint produces: a 200 acknowledgment, or an HTTP 500 when an
exception escapes the handler. -/
inductive HandlerResult where
  | ok (ack : AckResponse)
  | http500 (exn : String)
deriving DecidableEq, Repr

/-- Full observable outcome of one webhook request: the response and the
background fetch tasks scheduled (`background_tasks.add_task`,
main.py line 99). -/
structure WebhookOutcome where
  response : HandlerResult
  background : List (Int × String)
deriving DecidableEq, Repr

/-- `bookstack_webhook` (main.py lines 74–101).  Unsupported events are
acknowledged as ignored (lines 80–82).  For supported events the handler
evaluates `bookstack_api.is_book_monitored` (line 90); since `BookStackAPI`
defines no such attribute the lookup raises `AttributeError`, which escapes
the handler as an HTTP 500.  The `some` branch embeds the dead code of
lines 93–101 that would run if the method existed. -/
def bookstack_webhook (monitored : List Int) (payload : WebhookPayload) :
    WebhookOutcome :=
  if payload.event ≠ "page_update" ∧ payload.event ≠ "page_create" then
    { response := .ok (.ignored ("Event type " ++ payload.event ++ " not supported"))
      background := [] }
  else
    match BookStackAPI.is_book_monitored_lookup with
    | none =>
      { response := .http500
          "AttributeError: 'BookStackAPI' object has no attribute 'is_book_monitored'"
        background := [] }
    | some is_book_monitored =>
      let page_id := payload.related_item.id
      let book_id := payload.related_item.book_id
      let page_name := payload.related_item.name
      if is_book_monitored book_id monitored = false then
        { response := .ok (.ignored "Book not in monitored list")
          background := [] }
      else
        { response := .ok (.success ("Processamento da página " ++
            toString page_id ++ " iniciado em background."))
          background := [(page_id, page_name)] }

/-! ## Splitting/joining lemmas -/

theorem joinSep_cons_cons (sep p q : List Char) (ps : List (List Char)) :
    joinSep sep (p :: q :: ps) = p ++ sep ++ joinSep sep (q :: ps) := rfl

theorem joinSep_consHead (sep : List Char) (c : Char) (l : List (List Char)) :
    joinSep sep (consHead c l) = c :: joinSep sep l := by
  match l with
  | [] => rfl
  | [h] => rfl
  | h :: x :: xs => simp [consHead, joinSep_cons_cons]

theorem splitOnF_ne_nil (sep : List Char) (fuel : Nat) (s : List Char) :
    splitOnF sep fuel s ≠ [] := by
  match fuel, s with
  | _, [] => simp [splitOnF]
  | 0, c :: cs => simp [splitOnF]
  | fuel + 1, c :: cs =>
    simp only [splitOnF]
    split
    · simp
    · match h : splitOnF sep fuel cs with
      | [] => simp [consHead]
      | h :: t => simp [consHead]

theorem joinSep_splitOnF (sep : List Char) (hsep : sep ≠ []) :
    ∀ (fuel : Nat) (s : List Char), s.length ≤ fuel →
      joinSep sep (splitOnF sep fuel s) = s := by
  intro fuel
  induction fuel with
  | zero =>
    intro s hs
    match s with
    | [] => rfl
    | c :: cs => simp at hs
  | succ fuel ih =>
    intro s hs
    match s with
    | [] => rfl
    | c :: cs =>
      simp only [splitOnF]
      by_cases hpre : sep.isPrefixOf (c :: cs)
      · rw [if_pos hpre]
        have hpre' : sep <+: (c :: cs) := List.isPrefixOf_iff_prefix.mp hpre
        have heq : sep ++ List.drop sep.length (c :: cs) = c :: cs :=
          List.prefix_iff_eq_append.mp hpre'
        obtain ⟨k, hk⟩ : ∃ k, sep.length = k + 1 :=
          ⟨sep.length - 1, (Nat.succ_pred_eq_of_pos (List.length_pos.mpr hsep)).symm⟩
        have hdrop : List.drop (sep.length - 1) cs = List.drop sep.length (c :: cs) := by
          rw [hk]; simp
        have hlen : (List.drop (sep.length - 1) cs).length ≤ fuel := by
          have := List.length_drop (sep.length - 1) cs
          simp only [List.length_cons] at hs
          omega
        have hne : splitOnF sep fuel (List.drop (sep.length - 1) cs) ≠ [] :=
          splitOnF_ne_nil sep fuel _
        match hsp : splitOnF sep fuel (List.drop (sep.length - 1) cs) with
        | [] => exact absurd hsp hne
        | x :: xs =>
          have := ih (List.drop (sep.length - 1) cs) hlen
          rw [hsp] at this
          rw [joinSep_cons_cons]
          simp only [List.nil_append]
          rw [this, hdrop, heq]
      · rw [if_neg hpre]
        rw [joinSep_consHead]
        have hlen : cs.length ≤ fuel := by
          simp only [List.length_cons] at hs; omega
        rw [ih cs hlen]

theorem joinSep_splitOn (sep : List Char) (hsep : sep ≠ []) (s : List Char) :
    joinSep sep (splitOn sep s) = s :=
  joinSep_splitOnF sep hsep s.length s (Nat.le_refl _)

theorem joinSep_nil_map_singleton (s : List Char) :
    joinSep [] (s.map (fun c => [c])) = s := by
  induction s with
  | nil => rfl
  | cons c cs ih =>
    match hcs : cs with
    | [] => rfl
    | d :: ds =>
      simp only [List.map_cons, joinSep_cons_cons]
      simp only [List.map_cons] at ih
      rw [ih]
      simp

theorem joinSep_splitPieces (sep s : List Char) :
    joinSep sep (splitPieces sep s) = s := by
  by_cases h : sep.isEmpty
  · have : sep = [] := List.isEmpty_iff.mp h
    subst this
    simp only [splitPieces, List.isEmpty_nil, if_pos]
    exact joinSep_nil_map_singleton s
  · have hne : sep ≠ [] := fun hh => h (by simp [hh])
    simp only [splitPieces, h, Bool.false_eq_true, if_false]
    exact joinSep_splitOn sep hne s

/-! ## carrySeed lemmas -/

theorem carrySeed_suffix (M O : Nat) (sep p : List Char) :
    ∀ buffer : List (List Char), (carrySeed M O sep p buffer) <:+ buffer := by
  intro buffer
  induction buffer with
  | nil => simp [carrySeed]
  | cons q tail ih =>
    simp only [carrySeed]
    split
    · exact List.suffix_refl _
    · exact ih.trans (List.suffix_cons q tail)

theorem carrySeed_le_overlap (M O : Nat) (sep p : List Char) :
    ∀ buffer : List (List Char),
      (joinSep sep (carrySeed M O sep p buffer)).length ≤ O := by
  intro buffer
  induction buffer with
  | nil => simp [carrySeed, joinSep]
  | cons q tail ih =>
    simp only [carrySeed]
    split
    · next h => exact h.1
    · exact ih

theorem carrySeed_with_next_le_max (M O : Nat) (sep p : List Char)
    (hp : p.length ≤ M) :
    ∀ buffer : List (List Char),
      (joinSep sep (carrySeed M O sep p buffer ++ [p])).length ≤ M := by
  intro buffer
  induction buffer with
  | nil => simpa [carrySeed, joinSep] using hp
  | cons q tail ih =>
    simp only [carrySeed]
    split
    · next h => exact h.2
    · exact ih

/-! ## Chunk-size invariant (spec §3/§8: every chunk length ≤ M) -/

theorem mergeLoop_length_le (M O : Nat) (sep : List Char)
    (rec : List Char → List (List Char)) :
    ∀ (pieces buffer : List (List Char)),
      (∀ p ∈ pieces, M < p.length → ∀ c ∈ rec p, c.length ≤ M) →
      (joinSep sep buffer).length ≤ M →
      ∀ c ∈ mergeLoop M O sep rec pieces buffer, c.length ≤ M := by
  intro pieces
  induction pieces with
  | nil =>
    intro buffer _ hbuf c hc
    simp only [mergeLoop] at hc
    split at hc
    · simp at hc
    · simp only [List.mem_singleton] at hc
      exact hc ▸ hbuf
  | cons p ps ih =>
    intro buffer hrec hbuf c hc
    have hrec' : ∀ q ∈ ps, M < q.length → ∀ c ∈ rec q, c.length ≤ M :=
      fun q hq => hrec q (List.mem_cons_of_mem p hq)
    simp only [mergeLoop] at hc
    split at hc
    · next hplen =>
      rw [List.mem_append, List.mem_append] at hc
      rcases hc with (hc | hc) | hc
      · split at hc
        · simp at hc
        · simp only [List.mem_singleton] at hc
          exact hc ▸ hbuf
      · exact hrec p (List.mem_cons_self p ps) hplen c hc
      · exact ih [] hrec' (by simp [joinSep]) c hc
    · split at hc
      · next hplen _ =>
        refine ih [p] hrec' ?_ c hc
        simpa [joinSep] using Nat.le_of_not_lt hplen
      · split at hc
        · next hplen _ hover =>
          rcases List.mem_cons.mp hc with hc | hc
          · exact hc ▸ hbuf
          · refine ih _ hrec' ?_ c hc
            exact carrySeed_with_next_le_max M O sep p (Nat.le_of_not_lt hplen) buffer
        · next hover =>
          exact ih _ hrec' (Nat.le_of_not_lt hover) c hc

theorem chunkSpan_length_le (M O : Nat) (hM : 1 ≤ M) :
    ∀ seps : List (List Char), [] ∈ seps →
      ∀ span c, c ∈ chunkSpan M O seps span → c.length ≤ M := by
  intro seps
  induction seps with
  | nil => intro h; simp at h
  | cons sep rest ih =>
    intro hmem span c hc
    simp only [chunkSpan] at hc
    split at hc
    · next hle =>
      simp only [List.mem_singleton] at hc
      exact hc ▸ hle
    · refine mergeLoop_length_le M O sep (chunkSpan M O rest) _ [] ?_ (by simp [joinSep]) c hc
      intro p hp hplen d hd
      by_cases hsep : sep = []
      · subst hsep
        simp only [splitPieces, List.isEmpty_nil, if_pos, List.mem_map] at hp
        obtain ⟨x, _, hx⟩ := hp
        rw [← hx] at hplen
        simp at hplen
        omega
      · have hrest : [] ∈ rest := by
          rcases List.mem_cons.mp hmem with h | h
          · exact absurd h.symm hsep
          · exact h
        exact ih hrest p d hd

theorem split_text_length_le (M O : Nat) (hM : 1 ≤ M) (text : List Char) :
    ∀ c ∈ split_text M O text, c.length ≤ M := by
  intro c hc
  simp only [split_text] at hc
  split at hc
  · simp at hc
  · exact chunkSpan_length_le M O hM SEPARATORS (by simp [SEPARATORS]) text c hc

/-! ## Reconstruction up to boundary separators (spec §8 concatenation property) -/

/-- Concatenate chunks after stripping from each chunk its carried overlap
prefix (`ks` gives the per-chunk prefix length). -/
def deoverlap : List Nat → List (List Char) → List Char
  | k :: ks, c :: cs => c.drop k ++ deoverlap ks cs
  | _, _ => []

/-- `TakeSuffix k c prev`: the stripped prefix `c.take k` is a suffix of the
preceding chunk `prev`; with no preceding chunk nothing is stripped. -/
def TakeSuffix (k : Nat) (c : List Char) : Option (List Char) → Prop
  | some pc => c.take k <:+ pc
  | none => k = 0

/-- `PrevSeed sep seed prev`: the rejoined seed is a suffix of the preceding
chunk `prev`; with no preceding chunk the seed is empty. -/
def PrevSeed (sep : List Char) (seed : List (List Char)) :
    Option (List Char) → Prop
  | some pc => joinSep sep seed <:+ pc
  | none => seed = []

/-- `ChunkChain O prev ks cs`: the drop amounts `ks` are genuine overlap
prefixes for the chunk list `cs` — each is ≤ `O`, each stripped prefix is a
suffix of the preceding chunk (`prev` is the chunk preceding the list, if
any; with no predecessor the first amount is 0). -/
inductive ChunkChain (O : Nat) : Option (List Char) → List Nat → List (List Char) → Prop
  | nil (prev : Option (List Char)) : ChunkChain O prev [] []
  | cons (prev : Option (List Char)) (k : Nat) (c : List Char)
      (ks : List Nat) (cs : List (List Char))
      (hk : k ≤ O)
      (hsuf : TakeSuffix k c prev)
      (htail : ChunkChain O (some c) ks cs) :
      ChunkChain O prev (k :: ks) (c :: cs)

/-- `DropsSeps seps orig out`: `out` is `orig` with some occurrences of
separators from `seps` deleted. -/
inductive DropsSeps (seps : List (List Char)) : List Char → List Char → Prop
  | nil : DropsSeps seps [] []
  | cons (c : Char) {s t : List Char} :
      DropsSeps seps s t → DropsSeps seps (c :: s) (c :: t)
  | dropSep (sep : List Char) (hs : sep ∈ seps) {s t : List Char} :
      DropsSeps seps s t → DropsSeps seps (sep ++ s) t

theorem DropsSeps.refl (seps : List (List Char)) : ∀ s, DropsSeps seps s s := by
  intro s
  induction s with
  | nil => exact .nil
  | cons c cs ih => exact .cons c ih

theorem DropsSeps.glue {seps : List (List Char)} {a b c d : List Char}
    (h₁ : DropsSeps seps a b) (h₂ : DropsSeps seps c d) :
    DropsSeps seps (a ++ c) (b ++ d) := by
  induction h₁ with
  | nil => exact h₂
  | cons x _ ih => exact .cons x ih
  | dropSep sep hs _ ih =>
    rw [List.append_assoc]
    exact .dropSep sep hs ih

theorem ChunkChain.weaken {O : Nat} {ks : List Nat} {cs : List (List Char)}
    (h : ChunkChain O none ks cs) (prev : Option (List Char)) :
    ChunkChain O prev ks cs := by
  cases h with
  | nil => exact .nil prev
  | cons _ k c ks cs hk hsuf htail =>
    refine .cons prev k c ks cs hk ?_ htail
    have hk0 : k = 0 := hsuf
    cases prev with
    | none => exact hk0
    | some pc =>
      show c.take k <:+ pc
      simp only [hk0, List.take_zero]
      exact List.nil_suffix

theorem ChunkChain.append {O : Nat} {prev : Option (List Char)}
    {ks₁ ks₂ : List Nat} {cs₁ cs₂ : List (List Char)}
    (h₁ : ChunkChain O prev ks₁ cs₁) (h₂ : ChunkChain O none ks₂ cs₂) :
    ChunkChain O prev (ks₁ ++ ks₂) (cs₁ ++ cs₂) := by
  induction h₁ with
  | nil p => exact h₂.weaken p
  | cons p k c ks cs hk hsuf _ ih =>
    exact .cons p k c _ _ hk hsuf ih

theorem ChunkChain.length_eq {O : Nat} {prev : Option (List Char)}
    {ks : List Nat} {cs : List (List Char)} (h : ChunkChain O prev ks cs) :
    ks.length = cs.length := by
  induction h with
  | nil _ => rfl
  | cons _ _ _ _ _ _ _ _ ih => simp [ih]

theorem deoverlap_append :
    ∀ (ks₁ : List Nat) (cs₁ : List (List Char)) (ks₂ : List Nat)
      (cs₂ : List (List Char)), ks₁.length = cs₁.length →
      deoverlap (ks₁ ++ ks₂) (cs₁ ++ cs₂) = deoverlap ks₁ cs₁ ++ deoverlap ks₂ cs₂ := by
  intro ks₁
  induction ks₁ with
  | nil =>
    intro cs₁ ks₂ cs₂ hlen
    match cs₁ with
    | [] => simp only [List.nil_append]; rfl
    | c :: cs => simp at hlen
  | cons k ks ih =>
    intro cs₁ ks₂ cs₂ hlen
    match cs₁ with
    | [] => simp at hlen
    | c :: cs =>
      simp only [List.length_cons, Nat.succ.injEq] at hlen
      simp only [List.cons_append, deoverlap, List.append_eq]
      rw [ih cs ks₂ cs₂ hlen, List.append_assoc]

theorem joinSep_append_of_ne (sep : List Char) :
    ∀ (xs ys : List (List Char)), xs ≠ [] → ys ≠ [] →
      joinSep sep (xs ++ ys) = joinSep sep xs ++ sep ++ joinSep sep ys := by
  intro xs
  induction xs with
  | nil => intro ys h; exact absurd rfl h
  | cons x xs ih =>
    intro ys _ hys
    match xs with
    | [] =>
      match ys with
      | [] => exact absurd rfl hys
      | y :: ys' => simp [joinSep_cons_cons, joinSep]
    | x' :: xs' =>
      have h₁ : (x' :: xs') ++ ys ≠ [] := by simp
      match hj : (x' :: xs') ++ ys with
      | [] => exact absurd hj h₁
      | z :: zs =>
        rw [List.cons_append, hj, joinSep_cons_cons, ← hj,
          ih ys (by simp) hys, joinSep_cons_cons]
        simp [List.append_assoc]

theorem joinSep_suffix_of_suffix (sep : List Char)
    {s b : List (List Char)} (h : s <:+ b) :
    joinSep sep s <:+ joinSep sep b := by
  obtain ⟨pre, hpre⟩ := h
  match s with
  | [] => exact List.nil_suffix
  | x :: xs =>
    match pre with
    | [] => simp at hpre; rw [← hpre]
    | q :: qs =>
      rw [← hpre, joinSep_append_of_ne sep (q :: qs) (x :: xs) (by simp) (by simp)]
      exact ⟨joinSep sep (q :: qs) ++ sep, by simp [List.append_assoc]⟩

/-! ## mergeLoop unfolding lemmas -/

theorem mergeLoop_nil (M O : Nat) (sep : List Char)
    (rec : List Char → List (List Char)) (buffer : List (List Char))
    (h : buffer ≠ []) :
    mergeLoop M O sep rec [] buffer = [joinSep sep buffer] := by
  match buffer with
  | [] => exact absurd rfl h
  | b :: bs => rfl

theorem mergeLoop_oversized (M O : Nat) (sep : List Char)
    (rec : List Char → List (List Char)) (p : List Char)
    (ps buffer : List (List Char)) (h : M < p.length) :
    mergeLoop M O sep rec (p :: ps) buffer =
      (if buffer.isEmpty then [] else [joinSep sep buffer]) ++ rec p ++
        mergeLoop M O sep rec ps [] := by
  simp only [mergeLoop]
  rw [if_pos h]

theorem mergeLoop_start (M O : Nat) (sep : List Char)
    (rec : List Char → List (List Char)) (p : List Char)
    (ps : List (List Char)) (h : ¬ M < p.length) :
    mergeLoop M O sep rec (p :: ps) [] = mergeLoop M O sep rec ps [p] := by
  simp only [mergeLoop]
  rw [if_neg h]
  rfl

theorem mergeLoop_emit (M O : Nat) (sep : List Char)
    (rec : List Char → List (List Char)) (p : List Char)
    (ps buffer : List (List Char)) (hb : buffer ≠ []) (h : ¬ M < p.length)
    (hover : M < (joinSep sep (buffer ++ [p])).length) :
    mergeLoop M O sep rec (p :: ps) buffer =
      joinSep sep buffer ::
        mergeLoop M O sep rec ps (carrySeed M O sep p buffer ++ [p]) := by
  match buffer with
  | [] => exact absurd rfl hb
  | b :: bs =>
    simp only [mergeLoop]
    rw [if_neg h]
    show (if (b :: bs).isEmpty then _ else _) = _
    simp only [List.isEmpty_cons, Bool.false_eq_true, if_false]
    rw [if_pos hover]

theorem mergeLoop_acc (M O : Nat) (sep : List Char)
    (rec : List Char → List (List Char)) (p : List Char)
    (ps buffer : List (List Char)) (hb : buffer ≠ []) (h : ¬ M < p.length)
    (hover : ¬ M < (joinSep sep (buffer ++ [p])).length) :
    mergeLoop M O sep rec (p :: ps) buffer =
      mergeLoop M O sep rec ps (buffer ++ [p]) := by
  match buffer with
  | [] => exact absurd rfl hb
  | b :: bs =>
    simp only [mergeLoop]
    rw [if_neg h]
    show (if (b :: bs).isEmpty then _ else _) = _
    simp only [List.isEmpty_cons, Bool.false_eq_true, if_false]
    rw [if_neg hover]

theorem chunkSpan_le (M O : Nat) (sep : List Char) (rest : List (List Char))
    (span : List Char) (h : span.length ≤ M) :
    chunkSpan M O (sep :: rest) span = [span] := by
  simp only [chunkSpan]
  rw [if_pos h]

theorem chunkSpan_gt (M O : Nat) (sep : List Char) (rest : List (List Char))
    (span : List Char) (h : ¬ span.length ≤ M) :
    chunkSpan M O (sep :: rest) span =
      mergeLoop M O sep (chunkSpan M O rest) (splitPieces sep span) [] := by
  simp only [chunkSpan]
  rw [if_neg h]

/-! ## Helper lemmas for the reconstruction -/

theorem DropsSeps_pre_nil {seps : List (List Char)} {pre sep : List Char}
    (hsep : sep ∈ seps) (hpre : pre = [] ∨ pre = sep) :
    DropsSeps seps pre [] := by
  rcases hpre with h | h <;> rw [h]
  · exact .nil
  · have h2 : DropsSeps seps (sep ++ ([] : List Char)) [] :=
      DropsSeps.dropSep sep hsep DropsSeps.nil
    simpa using h2

theorem DropsSeps_pre_cons {seps : List (List Char)} {pre sep t u : List Char}
    (hsep : sep ∈ seps) (hpre : pre = [] ∨ pre = sep)
    (h : DropsSeps seps t u) : DropsSeps seps (pre ++ t) u := by
  rcases hpre with h' | h' <;> rw [h']
  · simpa using h
  · exact .dropSep sep hsep h

theorem chunk_take (sep : List Char) {seed newp : List (List Char)}
    (hs : seed ≠ []) (hn : newp ≠ []) :
    (joinSep sep (seed ++ newp)).take (joinSep sep seed).length =
      joinSep sep seed := by
  rw [joinSep_append_of_ne sep seed newp hs hn, List.append_assoc, List.take_left]

theorem chunk_drop (sep : List Char) {seed newp : List (List Char)}
    (hs : seed ≠ []) (hn : newp ≠ []) :
    (joinSep sep (seed ++ newp)).drop (joinSep sep seed).length =
      sep ++ joinSep sep newp := by
  rw [joinSep_append_of_ne sep seed newp hs hn, List.append_assoc, List.drop_left]

theorem chunk_hsuf (sep : List Char) {seed newp : List (List Char)}
    (prev : Option (List Char)) (hprev : PrevSeed sep seed prev)
    (hn : newp ≠ []) :
    TakeSuffix (joinSep sep seed).length (joinSep sep (seed ++ newp)) prev := by
  cases prev with
  | none =>
    have hs : seed = [] := hprev
    show (joinSep sep seed).length = 0
    subst hs
    rfl
  | some pc =>
    have hprev' : joinSep sep seed <:+ pc := hprev
    show (joinSep sep (seed ++ newp)).take (joinSep sep seed).length <:+ pc
    by_cases hs : seed = []
    · subst hs
      show (joinSep sep ([] ++ newp)).take (joinSep sep []).length <:+ pc
      simp [joinSep]
    · rw [chunk_take sep hs hn]
      exact hprev'

theorem chunk_seg1 {seps : List (List Char)} (sep : List Char)
    {seed newp : List (List Char)} {pre : List Char} (hsep : sep ∈ seps)
    (hpre : pre = [] ∨ pre = sep) (hseedpre : seed ≠ [] → pre = sep)
    (hn : newp ≠ []) :
    DropsSeps seps (pre ++ joinSep sep newp)
      ((joinSep sep (seed ++ newp)).drop (joinSep sep seed).length) := by
  by_cases hs : seed = []
  · subst hs
    show DropsSeps seps (pre ++ joinSep sep newp)
      ((joinSep sep ([] ++ newp)).drop (joinSep sep []).length)
    simp only [List.nil_append, joinSep, List.length_nil, List.drop_zero]
    exact DropsSeps_pre_cons hsep hpre (DropsSeps.refl seps _)
  · rw [hseedpre hs, chunk_drop sep hs hn]
    exact DropsSeps.refl seps _

theorem isEmpty_false_of_ne {α : Type} {l : List α} (h : l ≠ []) :
    l.isEmpty = false := by
  match l with
  | [] => exact absurd rfl h
  | a :: as => rfl

theorem deoverlap_single (k : Nat) (c : List Char) :
    deoverlap [k] [c] = c.drop k := by
  show c.drop k ++ deoverlap [] [] = c.drop k
  show c.drop k ++ [] = c.drop k
  rw [List.append_nil]

theorem mergeLoop_reconstruct (M O : Nat) (seps : List (List Char)) (sep : List Char)
    (hsep : sep ∈ seps) (rec : List Char → List (List Char)) :
    ∀ (pieces seed newp : List (List Char)) (prev : Option (List Char)) (pre : List Char),
      (∀ p ∈ pieces, M < p.length →
        ∃ ks, ChunkChain O none ks (rec p) ∧
          DropsSeps seps p (deoverlap ks (rec p))) →
      PrevSeed sep seed prev →
      (pre = [] ∨ pre = sep) →
      (seed ≠ [] → pre = sep) →
      (seed ≠ [] → newp ≠ []) →
      (joinSep sep seed).length ≤ O →
      ∃ ks, ChunkChain O prev ks (mergeLoop M O sep rec pieces (seed ++ newp)) ∧
        DropsSeps seps (pre ++ joinSep sep (newp ++ pieces))
          (deoverlap ks (mergeLoop M O sep rec pieces (seed ++ newp))) := by
  intro pieces
  induction pieces with
  | nil =>
    intro seed newp prev pre hrec hprev hpre hseedpre hnew hO
    by_cases hb : seed ++ newp = []
    · obtain ⟨hseed, hnewp⟩ := List.append_eq_nil.mp hb
      subst hseed; subst hnewp
      refine ⟨[], .nil prev, ?_⟩
      simpa [mergeLoop, joinSep, deoverlap] using DropsSeps_pre_nil hsep hpre
    · have hnewp : newp ≠ [] := by
        intro h
        subst h
        by_cases hs : seed = []
        · exact hb (by simp [hs])
        · exact (hnew hs) rfl
      rw [mergeLoop_nil M O sep rec _ hb]
      refine ⟨[(joinSep sep seed).length], ?_, ?_⟩
      · exact .cons prev _ _ [] [] hO (chunk_hsuf sep prev hprev hnewp) (.nil _)
      · show DropsSeps seps (pre ++ joinSep sep (newp ++ [])) _
        rw [List.append_nil, deoverlap_single]
        exact chunk_seg1 sep hsep hpre hseedpre hnewp
  | cons p ps ih =>
    intro seed newp prev pre hrec hprev hpre hseedpre hnew hO
    have hrec' : ∀ q ∈ ps, M < q.length →
        ∃ ks, ChunkChain O none ks (rec q) ∧
          DropsSeps seps q (deoverlap ks (rec q)) :=
      fun q hq => hrec q (List.mem_cons_of_mem p hq)
    by_cases hplen : M < p.length
    · -- oversized piece: flush the buffer, recurse into p, continue fresh
      rw [mergeLoop_oversized M O sep rec p ps _ hplen]
      obtain ⟨ksp, chainp, dropsp⟩ := hrec p (List.mem_cons_self p ps) hplen
      obtain ⟨ks', chain', drops'⟩ :=
        ih [] [] none (if ps.isEmpty then [] else sep) hrec'
          (show ([] : List (List Char)) = [] from rfl)
          (by by_cases hq : ps.isEmpty <;> simp [hq])
          (fun h => absurd rfl h) (fun h => absurd rfl h)
          (by simp [joinSep])
      simp only [List.nil_append] at drops' chain'
      by_cases hb : seed ++ newp = []
      · -- nothing to flush
        obtain ⟨hseed, hnewp⟩ := List.append_eq_nil.mp hb
        subst hseed; subst hnewp
        simp only [List.nil_append, List.isEmpty_nil, if_true]
        refine ⟨ksp ++ ks', (chainp.append chain').weaken prev, ?_⟩
        rw [deoverlap_append ksp (rec p) ks' _ chainp.length_eq]
        by_cases hps : ps = []
        · subst hps
          simp only [List.isEmpty_nil, if_true] at drops'
          have seg12 := (DropsSeps_pre_cons hsep hpre dropsp).glue drops'
          simpa [joinSep] using seg12
        · have hq : ps.isEmpty = false := isEmpty_false_of_ne hps
          rw [hq] at drops'
          simp only [Bool.false_eq_true, if_false] at drops'
          have seg12 := (DropsSeps_pre_cons hsep hpre dropsp).glue drops'
          match ps with
          | q :: qs =>
            rw [joinSep_cons_cons]
            simpa [List.append_assoc] using seg12
      · -- flush the pending buffer as a chunk
        have hnewp : newp ≠ [] := by
          intro h
          subst h
          by_cases hs : seed = []
          · exact hb (by simp [hs])
          · exact (hnew hs) rfl
        rw [isEmpty_false_of_ne hb]
        simp only [Bool.false_eq_true, if_false]
        refine ⟨[(joinSep sep seed).length] ++ ksp ++ ks', ?_, ?_⟩
        · have single : ChunkChain O prev [(joinSep sep seed).length]
              [joinSep sep (seed ++ newp)] :=
            .cons prev _ _ [] [] hO (chunk_hsuf sep prev hprev hnewp) (.nil _)
          have := single.append (chainp.append chain')
          simpa [List.append_assoc] using this
        · have hlen1 : ([(joinSep sep seed).length] ++ ksp).length =
              ([joinSep sep (seed ++ newp)] ++ rec p).length := by
            simp [chainp.length_eq]
          rw [deoverlap_append _ _ ks' _ hlen1,
            deoverlap_append [(joinSep sep seed).length] _ ksp _ (by simp),
            deoverlap_single]
          have seg1 := chunk_seg1 sep hsep hpre hseedpre hnewp
          have seg2 : DropsSeps seps (sep ++ p) (deoverlap ksp (rec p)) :=
            .dropSep sep hsep dropsp
          by_cases hps : ps = []
          · subst hps
            simp only [List.isEmpty_nil, if_true] at drops'
            have all := (seg1.glue seg2).glue drops'
            rw [joinSep_append_of_ne sep newp [p] hnewp (by simp)]
            simpa [joinSep, List.append_assoc] using all
          · have hq : ps.isEmpty = false := isEmpty_false_of_ne hps
            rw [hq] at drops'
            simp only [Bool.false_eq_true, if_false] at drops'
            have all := (seg1.glue seg2).glue drops'
            rw [joinSep_append_of_ne sep newp (p :: ps) hnewp (by simp)]
            match ps with
            | q :: qs =>
              rw [joinSep_cons_cons]
              simpa [List.append_assoc] using all
    · by_cases hb : seed ++ newp = []
      · -- empty buffer: start a fresh buffer with p
        obtain ⟨hseed, hnewp⟩ := List.append_eq_nil.mp hb
        subst hseed; subst hnewp
        simp only [List.nil_append]
        rw [mergeLoop_start M O sep rec p ps hplen]
        have hprev' : PrevSeed sep ([] : List (List Char)) prev := by
          cases prev with
          | none => show ([] : List (List Char)) = []; rfl
          | some pc => show joinSep sep [] <:+ pc; simp [joinSep]
        obtain ⟨ks, chain, drops⟩ :=
          ih [] [p] prev pre hrec' hprev' hpre
            (fun h => absurd rfl h) (fun h => by simp) (by simp [joinSep])
        refine ⟨ks, by simpa using chain, ?_⟩
        simpa using drops
      · have hnewp : newp ≠ [] := by
          intro h
          subst h
          by_cases hs : seed = []
          · exact hb (by simp [hs])
          · exact (hnew hs) rfl
        by_cases hover : M < (joinSep sep ((seed ++ newp) ++ [p])).length
        · -- emit the buffer, seed the next one with the overlap carry
          rw [mergeLoop_emit M O sep rec p ps _ hb hplen hover]
          have hseed' : joinSep sep (carrySeed M O sep p (seed ++ newp)) <:+
              joinSep sep (seed ++ newp) :=
            joinSep_suffix_of_suffix sep (carrySeed_suffix M O sep p (seed ++ newp))
          obtain ⟨ks2, chain2, drops2⟩ :=
            ih (carrySeed M O sep p (seed ++ newp)) [p]
              (some (joinSep sep (seed ++ newp))) sep hrec' hseed'
              (Or.inr rfl) (fun _ => rfl) (fun _ => by simp)
              (carrySeed_le_overlap M O sep p (seed ++ newp))
          refine ⟨(joinSep sep seed).length :: ks2, ?_, ?_⟩
          · exact .cons prev _ _ ks2 _ hO (chunk_hsuf sep prev hprev hnewp) chain2
          · show DropsSeps seps _
              ((joinSep sep (seed ++ newp)).drop (joinSep sep seed).length ++
                deoverlap ks2 _)
            have seg1 := chunk_seg1 sep hsep hpre hseedpre hnewp
            have all := seg1.glue drops2
            rw [joinSep_append_of_ne sep newp (p :: ps) hnewp (by simp)]
            simpa [List.append_assoc] using all
        · -- accumulate p into the buffer
          rw [mergeLoop_acc M O sep rec p ps _ hb hplen hover]
          have hbp : (seed ++ newp) ++ [p] = seed ++ (newp ++ [p]) :=
            List.append_assoc seed newp [p]
          rw [hbp]
          obtain ⟨ks, chain, drops⟩ :=
            ih seed (newp ++ [p]) prev pre hrec' hprev hpre hseedpre
              (fun _ => by simp) hO
          refine ⟨ks, chain, ?_⟩
          have hflat : (newp ++ [p]) ++ ps = newp ++ (p :: ps) := by
            rw [List.append_assoc]
            rfl
          rw [hflat] at drops
          exact drops

theorem chunkSpan_reconstruct (M O : Nat) (seps : List (List Char)) :
    ∀ cascade : List (List Char), (∀ sep ∈ cascade, sep ∈ seps) →
      ∀ span, ∃ ks, ChunkChain O none ks (chunkSpan M O cascade span) ∧
        DropsSeps seps span (deoverlap ks (chunkSpan M O cascade span)) := by
  intro cascade
  induction cascade with
  | nil =>
    intro _ span
    refine ⟨[0], ?_, ?_⟩
    · exact .cons none 0 span [] [] (Nat.zero_le O) rfl (.nil _)
    · rw [show chunkSpan M O [] span = [span] from rfl, deoverlap_single]
      simpa using DropsSeps.refl seps span
  | cons sep rest ih =>
    intro hcasc span
    by_cases hle : span.length ≤ M
    · rw [chunkSpan_le M O sep rest span hle]
      refine ⟨[0], .cons none 0 span [] [] (Nat.zero_le O) rfl (.nil _), ?_⟩
      rw [deoverlap_single]
      simpa using DropsSeps.refl seps span
    · rw [chunkSpan_gt M O sep rest span hle]
      have hsep : sep ∈ seps := hcasc sep (List.mem_cons_self sep rest)
      have hrec : ∀ p ∈ splitPieces sep span, M < p.length →
          ∃ ks, ChunkChain O none ks (chunkSpan M O rest p) ∧
            DropsSeps seps p (deoverlap ks (chunkSpan M O rest p)) := by
        intro p _ _
        exact ih (fun s hs => hcasc s (List.mem_cons_of_mem sep hs)) p
      obtain ⟨ks, chain, drops⟩ :=
        mergeLoop_reconstruct M O seps sep hsep (chunkSpan M O rest)
          (splitPieces sep span) [] [] none []
          hrec (show ([] : List (List Char)) = [] from rfl) (Or.inl rfl)
          (fun h => absurd rfl h) (fun h => absurd rfl h) (by simp [joinSep])
      refine ⟨ks, by simpa using chain, ?_⟩
      have hj : joinSep sep (splitPieces sep span) = span := joinSep_splitPieces sep span
      simpa [hj] using drops

theorem split_text_reconstruct (M O : Nat) (text : List Char) :
    ∃ ks, ChunkChain O none ks (split_text M O text) ∧
      DropsSeps SEPARATORS text (deoverlap ks (split_text M O text)) := by
  by_cases ht : text = []
  · subst ht
    refine ⟨[], .nil none, ?_⟩
    show DropsSeps SEPARATORS [] (deoverlap [] (split_text M O []))
    rw [show split_text M O [] = [] from rfl]
    exact .nil
  · have : split_text M O text = chunkSpan M O SEPARATORS text := by
      simp [split_text, isEmpty_false_of_ne ht]
    rw [this]
    exact chunkSpan_reconstruct M O SEPARATORS SEPARATORS (fun s hs => hs) text

/-! ## Claim theorems -/

/-- A chunk is an indivisible finest-granularity unit: no non-empty
separator of the cascade occurs inside it. -/
def Indivisible (c : List Char) : Prop :=
  ∀ sep ∈ SEPARATORS, sep = [] ∨ ¬ sep <:+: c

/-- C1: for a supported event kind whose book id is not monitored, the spec
claims the endpoint answers `{"status": "ignored", "reason": "Book not in
monitored list"}` with no fetch.  The code instead evaluates
`bookstack_api.is_book_monitored` (main.py line 90), an attribute
`BookStackAPI` does not define, so the handler raises `AttributeError` and
the endpoint returns an HTTP 500 — no fetch is scheduled, but the promised
acknowledgment is never produced.  This theorem evaluates the handler at
such an input: book id 99 is not in the monitored list [1, 2, 3], the event
kind is supported, and the outcome is the 500, not the ignored response. -/
theorem c1_unmonitored_book_gets_500 :
    List.elem (99 : Int) [1, 2, 3] = false ∧
    bookstack_webhook [1, 2, 3]
      (WebhookPayload.mk "page_update" "X updated page Y" "http://bs/p"
        (WebhookRelatedItem.mk 42 "页面" "pagina" 99 none "http://bs/p")) =
      WebhookOutcome.mk
        (.http500
          "AttributeError: 'BookStackAPI' object has no attribute 'is_book_monitored'")
        [] := by
  constructor
  · decide
  · decide

/-- C2: the spec claims every successfully parsed notification gets an
acknowledgment and the handler never raises.  For any supported event kind —
even for a monitored book — the handler evaluates the nonexistent attribute
`bookstack_api.is_book_monitored` (main.py line 90) and raises
`AttributeError`; the response is an HTTP 500, not an acknowledgment.  This
theorem evaluates the handler at a well-typed payload whose book (id 1) is
monitored. -/
theorem c2_parsed_payload_raises :
    (bookstack_webhook [1]
      (WebhookPayload.mk "page_create" "X created page Y" "http://bs/q"
        (WebhookRelatedItem.mk 7 "Doc" "doc" 1 none "http://bs/q"))).response =
      .http500
        "AttributeError: 'BookStackAPI' object has no attribute 'is_book_monitored'" := by
  decide

/-- C3: for every valid configuration `0 ≤ O < M` and every input, every
chunk is at most `M` characters long, the only permitted exception being an
indivisible finest-granularity unit longer than `M`.  (With the configured
cascade, which ends in the character-level separator, the exception never
actually occurs: the stronger bound `length ≤ M` holds for every chunk.) -/
theorem c3_chunk_size_bound (M O : Nat) (h : O < M) (text : List Char) :
    ∀ c ∈ split_text M O text,
      c.length ≤ M ∨ (M < c.length ∧ Indivisible c) := by
  intro c hc
  exact Or.inl (split_text_length_le M O (by omega) text c hc)

/-- Witness for C3 at the concrete valid configuration (M, O) = (5, 1) and
input `"abc def"`, whose first chunk is `"abc"`. -/
theorem c3_chunk_size_bound_witness :
    (1 : Nat) < 5 ∧
    ("abc".toList.length ≤ 5 ∨ (5 < "abc".toList.length ∧ Indivisible "abc".toList)) :=
  ⟨by decide,
    c3_chunk_size_bound 5 1 (by decide) "abc def".toList "abc".toList (by decide)⟩

/-- C4 counterexample: at the valid configuration (M, O) = (5, 1) the input
`"abc def"` is chunked into `["abc", "def"]`.  Neither chunk contains the
space, and the combined chunk length (6) is already smaller than the input
length (7), so no removal of overlap prefixes can make the concatenation
reproduce the input: the boundary separator `" "` has been dropped.  The
final four conjuncts check every possible prefix removal from the second
chunk directly (dropping 3 or more characters of `"def"` coincide). -/
theorem c4_concat_counterexample :
    (1 : Nat) < 5 ∧
    split_text 5 1 "abc def".toList = ["abc".toList, "def".toList] ∧
    "abc".toList.length + "def".toList.length < "abc def".toList.length ∧
    ("abc".toList ++ "def".toList.drop 0 == "abc def".toList) = false ∧
    ("abc".toList ++ "def".toList.drop 1 == "abc def".toList) = false ∧
    ("abc".toList ++ "def".toList.drop 2 == "abc def".toList) = false ∧
    ("abc".toList ++ "def".toList.drop 3 == "abc def".toList) = false := by
  decide

/-- C4 amended: concatenating the chunks in order, after removing from each
chunk a genuine overlap prefix (first amount 0, each amount ≤ O, each
removed prefix a suffix of the preceding chunk — the `ChunkChain`),
reproduces the original text up to the deletion of separator occurrences at
chunk boundaries (`DropsSeps`); no character outside those boundary
separator occurrences is dropped. -/
theorem c4_concat_up_to_boundary_separators (M O : Nat) (h : O < M)
    (text : List Char) :
    ∃ ks, ChunkChain O none ks (split_text M O text) ∧
      DropsSeps SEPARATORS text (deoverlap ks (split_text M O text)) :=
  split_text_reconstruct M O text

/-- Witness for the amended C4 at the concrete valid configuration
(M, O) = (5, 1) and input `"abc def"`. -/
theorem c4_concat_up_to_boundary_separators_witness :
    (1 : Nat) < 5 ∧
    ∃ ks, ChunkChain 1 none ks (split_text 5 1 "abc def".toList) ∧
      DropsSeps SEPARATORS "abc def".toList
        (deoverlap ks (split_text 5 1 "abc def".toList)) :=
  ⟨by decide, c4_concat_up_to_boundary_separators 5 1 (by decide) "abc def".toList⟩

/-- C5: under a valid configuration, a non-empty input of length ≤ M is
returned as the single chunk equal to the whole input, and the empty input
yields the empty sequence (not `[""]`). -/
theorem c5_small_input_single_chunk (M O : Nat) (h : O < M) (s : List Char) :
    (s ≠ [] → s.length ≤ M → split_text M O s = [s]) ∧
    split_text M O [] = [] := by
  constructor
  · intro hne hle
    have hf : s.isEmpty = false := isEmpty_false_of_ne hne
    simp only [split_text, hf, Bool.false_eq_true, if_false]
    rw [show SEPARATORS = ['\n', '\n'] :: [['\n'], [' '], []] from rfl]
    exact chunkSpan_le M O _ _ s hle
  · rfl

/-- Witness for C5 at the valid configuration (M, O) = (5, 1): the two-character
input `"hi"` gives the single chunk `"hi"`, and the empty input gives `[]`. -/
theorem c5_small_input_single_chunk_witness :
    (1 : Nat) < 5 ∧ split_text 5 1 "hi".toList = ["hi".toList] ∧
    split_text 5 1 [] = [] :=
  ⟨by decide,
    (c5_small_input_single_chunk 5 1 (by decide) "hi".toList).1 (by decide) (by decide),
    (c5_small_input_single_chunk 5 1 (by decide) "hi".toList).2⟩

/-- C6: in any chunk sequence produced under a valid configuration, every
chunk after the first begins with a suffix of its predecessor of length ≤ O.
(As stated the property asks only for the existence of such a suffix, which
the empty suffix — length 0 ≤ O — always provides; the non-trivial fact that
the actual carried overlap prefixes are suffixes of their predecessors is the
`ChunkChain` component of the C4 reconstruction theorem.) -/
theorem c6_chunk_begins_with_predecessor_suffix (M O : Nat) (h : O < M)
    (text : List Char) (pre : List (List Char)) (c₁ c₂ : List Char)
    (suf : List (List Char))
    (hsplit : split_text M O text = pre ++ c₁ :: c₂ :: suf) :
    ∃ s : List Char, s.length ≤ O ∧ s <:+ c₁ ∧ s <+: c₂ :=
  ⟨[], by simp, List.nil_suffix, List.nil_prefix⟩

/-- Witness for C6 at the valid configuration (M, O) = (5, 1) and input
`"abc def"`, whose chunks `"abc"`, `"def"` are consecutive. -/
theorem c6_chunk_begins_with_predecessor_suffix_witness :
    ((1 : Nat) < 5 ∧
      split_text 5 1 "abc def".toList = [] ++ "abc".toList :: "def".toList :: []) ∧
    ∃ s : List Char, s.length ≤ 1 ∧ s <:+ "abc".toList ∧ s <+: "def".toList :=
  ⟨⟨by decide, by decide⟩,
    c6_chunk_begins_with_predecessor_suffix 5 1 (by decide) "abc def".toList
      [] "abc".toList "def".toList [] (by decide)⟩

/-- C7: a configuration whose resolved overlap is ≥ the resolved maximum
chunk size makes `RAGProcessor` construction fail with a configuration error
at splitter-construction time, before any chunking is attempted (the
invalid configuration is rejected, not clamped). -/
theorem c7_overlap_ge_max_rejected (size overlap : EnvNum)
    (h : (resolveChunkConfig size overlap).1 ≤ (resolveChunkConfig size overlap).2) :
    ragProcessorInit size overlap =
      .error "invalid chunking configuration: overlap must be smaller than chunk size" := by
  simp [ragProcessorInit, mkTextSplitter, h]

/-- Witness for C7 at the concrete environment `CHUNK_SIZE=10`,
`CHUNK_OVERLAP=20` (overlap greater than the maximum). -/
theorem c7_overlap_ge_max_rejected_witness :
    (resolveChunkConfig (.numeric 10) (.numeric 20)).1 ≤
      (resolveChunkConfig (.numeric 10) (.numeric 20)).2 ∧
    ragProcessorInit (.numeric 10) (.numeric 20) =
      .error "invalid chunking configuration: overlap must be smaller than chunk size" :=
  ⟨by decide, c7_overlap_ge_max_rejected (.numeric 10) (.numeric 20) (by decide)⟩

/-- The ways a page fetch can fail: missing/empty BookStack credentials, an
HTTP error status, a transport error, or a response without a `markdown`
field. -/
def fetchFailure (env : BookStackEnv) (outcome : HttpOutcome) : Prop :=
  pyFalsy env.base_url = true ∨ pyFalsy env.token_id = true ∨
  pyFalsy env.token_secret = true ∨
  (∃ n, outcome = .httpError n) ∨ outcome = .requestError ∨
  (∃ fields, outcome = .success fields ∧ lookupField "markdown" fields = none)

/-- C8: every fetch failure makes `get_page_content` return the empty string
(no exception — the embedding is a total function), and the background unit
of work then aborts before any chunking or ingestion. -/
theorem c8_fetch_failure_aborts (env : BookStackEnv) (outcome : HttpOutcome)
    (ragEnv : RAGEnv) (M O : Nat) (page_id : Int) (page_name : String)
    (h : fetchFailure env outcome) :
    get_page_content env outcome = "" ∧
    process_bookstack_update env outcome ragEnv M O page_id page_name =
      .aborted_no_content := by
  have hempty : get_page_content env outcome = "" := by
    rcases h with h | h | h | ⟨n, h⟩ | h | ⟨fields, h, hf⟩
    · simp [get_page_content, make_request, h]
    · simp [get_page_content, make_request, h]
    · simp [get_page_content, make_request, h]
    · subst h
      by_cases hcond : (pyFalsy env.base_url || pyFalsy env.token_id ||
          pyFalsy env.token_secret) = true
      · simp [get_page_content, make_request, hcond]
      · simp [get_page_content, make_request, hcond]
    · subst h
      by_cases hcond : (pyFalsy env.base_url || pyFalsy env.token_id ||
          pyFalsy env.token_secret) = true
      · simp [get_page_content, make_request, hcond]
      · simp [get_page_content, make_request, hcond]
    · subst h
      by_cases hcond : (pyFalsy env.base_url || pyFalsy env.token_id ||
          pyFalsy env.token_secret) = true
      · simp [get_page_content, make_request, hcond]
      · simp [get_page_content, make_request, hcond, hf]
  refine ⟨hempty, ?_⟩
  simp only [process_bookstack_update, hempty]
  rfl

/-- Witness for C8: full credentials, but the HTTP request fails with a
transport error; the fetch yields `""` and processing aborts. -/
theorem c8_fetch_failure_aborts_witness :
    fetchFailure (BookStackEnv.mk (some "http://bs/") (some "tid") (some "tsec"))
      .requestError ∧
    (get_page_content
        (BookStackEnv.mk (some "http://bs/") (some "tid") (some "tsec"))
        .requestError = "" ∧
      process_bookstack_update
        (BookStackEnv.mk (some "http://bs/") (some "tid") (some "tsec"))
        .requestError
        (RAGEnv.mk (some "http://owui") (some "key") (some "kb") (some "http://bs/"))
        1000 200 42 "Page" = .aborted_no_content) :=
  ⟨Or.inr (Or.inr (Or.inr (Or.inr (Or.inl rfl)))),
    c8_fetch_failure_aborts _ .requestError _ 1000 200 42 "Page"
      (Or.inr (Or.inr (Or.inr (Or.inr (Or.inl rfl)))))⟩

/-- C9: if any of the Open WebUI sink credentials (base URL, API key,
knowledge-base name) is unset or empty, the ingestion emits no chunk payload
and returns normally. -/
theorem c9_missing_sink_credentials_no_payloads (env : RAGEnv) (page_id : Int)
    (page_name : String) (chunks : List String)
    (h : pyFalsy env.base_url = true ∨ pyFalsy env.api_key = true ∨
      pyFalsy env.kb_name = true) :
    simulate_openwebui_ingestion env page_id page_name chunks = [] := by
  rcases h with h | h | h <;> simp [simulate_openwebui_ingestion, h]

/-- Witness for C9: the API key is the empty string; nothing is emitted. -/
theorem c9_missing_sink_credentials_no_payloads_witness :
    (pyFalsy (RAGEnv.mk (some "http://owui") (some "") (some "kb") none).api_key
      = true ∨
      pyFalsy (RAGEnv.mk (some "http://owui") (some "") (some "kb") none).kb_name
        = true) ∧
    simulate_openwebui_ingestion
      (RAGEnv.mk (some "http://owui") (some "") (some "kb") none)
      123 "Test" ["um chunk"] = [] :=
  ⟨Or.inl (by decide),
    c9_missing_sink_credentials_no_payloads _ 123 "Test" ["um chunk"]
      (Or.inr (Or.inl (by decide)))⟩

theorem map_payload_enumFrom_text (page_id : Int) (md : ChunkMetadata) :
    ∀ (chunks : List String) (n : Nat),
      ((List.enumFrom n chunks).map (fun ic =>
        IngestPayload.mk (toString page_id ++ "-" ++ toString ic.1) ic.2 md)).map
          (fun pl => pl.text) = chunks := by
  intro chunks
  induction chunks with
  | nil => intro n; rfl
  | cons c cs ih =>
    intro n
    simp only [List.enumFrom, List.map_cons]
    rw [ih (n + 1)]

theorem map_payload_enumFrom_chunk_id (page_id : Int) (md : ChunkMetadata) :
    ∀ (chunks : List String) (n : Nat),
      ((List.enumFrom n chunks).map (fun ic =>
        IngestPayload.mk (toString page_id ++ "-" ++ toString ic.1) ic.2 md)).map
          (fun pl => pl.chunk_id) =
        (List.range' n chunks.length).map
          (fun i => toString page_id ++ "-" ++ toString i) := by
  intro chunks
  induction chunks with
  | nil => intro n; rfl
  | cons c cs ih =>
    intro n
    simp only [List.enumFrom, List.map_cons, List.length_cons, List.range'_succ]
    rw [ih (n + 1)]

/-- C10: when the sink credentials are all present, the ingestion emits one
payload per chunk in index order: the i-th payload carries the i-th chunk's
text and the chunk id `"<page_id>-<i>"` (zero-based), and every payload of
the call carries the same metadata — source `"BookStack Page ID: <page_id>"`,
title the page name, and the origin URL built from the configured
`BOOKSTACK_BASE_URL` and the page id. -/
theorem c10_payload_order_ids_metadata (env : RAGEnv) (page_id : Int)
    (page_name : String) (chunks : List String)
    (hb : pyFalsy env.base_url = false) (ha : pyFalsy env.api_key = false)
    (hk : pyFalsy env.kb_name = false) :
    ((simulate_openwebui_ingestion env page_id page_name chunks).map
        (fun pl => pl.text) = chunks) ∧
    ((simulate_openwebui_ingestion env page_id page_name chunks).map
        (fun pl => pl.chunk_id) =
      (List.range chunks.length).map
        (fun i => toString page_id ++ "-" ++ toString i)) ∧
    (∀ pl ∈ simulate_openwebui_ingestion env page_id page_name chunks,
      pl.metadata = ChunkMetadata.mk ("BookStack Page ID: " ++ toString page_id)
        page_name (pyStrOfOpt env.bookstack_base_url ++ "view/" ++ toString page_id)) := by
  have hcond : (pyFalsy env.base_url || pyFalsy env.api_key ||
      pyFalsy env.kb_name) = false := by
    simp [hb, ha, hk]
  simp only [simulate_openwebui_ingestion, hcond, Bool.false_eq_true, if_false]
  refine ⟨?_, ?_, ?_⟩
  · exact map_payload_enumFrom_text page_id _ chunks 0
  · rw [List.range_eq_range']
    exact map_payload_enumFrom_chunk_id page_id _ chunks 0
  · intro pl hpl
    simp only [List.mem_map] at hpl
    obtain ⟨ic, _, hic⟩ := hpl
    rw [← hic]

/-- Witness for C10: full credentials, page id 9, two chunks — the payloads
are `9-0`, `9-1` in order, with the shared metadata. -/
theorem c10_payload_order_ids_metadata_witness :
    (pyFalsy (some "http://owui") = false ∧ pyFalsy (some "key") = false ∧
      pyFalsy (some "kb") = false) ∧
    (((simulate_openwebui_ingestion
        (RAGEnv.mk (some "http://owui") (some "key") (some "kb") (some "http://bs/"))
        9 "Doc" ["aa", "bb"]).map (fun pl => pl.text) = ["aa", "bb"]) ∧
      ((simulate_openwebui_ingestion
        (RAGEnv.mk (some "http://owui") (some "key") (some "kb") (some "http://bs/"))
        9 "Doc" ["aa", "bb"]).map (fun pl => pl.chunk_id) =
        (List.range (["aa", "bb"] : List String).length).map
          (fun i => toString (9 : Int) ++ "-" ++ toString i)) ∧
      (∀ pl ∈ simulate_openwebui_ingestion
          (RAGEnv.mk (some "http://owui") (some "key") (some "kb") (some "http://bs/"))
          9 "Doc" ["aa", "bb"],
        pl.metadata = ChunkMetadata.mk ("BookStack Page ID: " ++ toString (9 : Int))
          "Doc" (pyStrOfOpt (some "http://bs/") ++ "view/" ++ toString (9 : Int)))) :=
  ⟨⟨by decide, by decide, by decide⟩,
    c10_payload_order_ids_metadata
      (RAGEnv.mk (some "http://owui") (some "key") (some "kb") (some "http://bs/"))
      9 "Doc" ["aa", "bb"] (by decide) (by decide) (by decide)⟩
